import Mathlib

/-!
# Verification of the privacy-scoped retrieval engine

Shallow embedding of the retrieval core of the insurance-chatbot backend:
`server/services/rag_service.py` (the retrieval gateway),
`server/services/faiss_vector_store.py` (the similarity index), and
`server/services/vector_store.py` (the hashed n-gram embedding), together
with proofs of the specified properties.

Python values relevant to the claims are either strings or `None`; machine
floats are modelled as exact rationals (reals where square roots occur).
-/

/-! ## Python-style primitives -/

/-- A Python value appearing in a `filters` dict: `None` or a string. -/
inductive PyVal where
  | vNone : PyVal
  | vStr : String → PyVal
deriving DecidableEq, Repr

/-- Python truthiness of a `PyVal`: `None` and `""` are falsy. -/
def pyTruthy : PyVal → Bool
  | .vNone => false
  | .vStr s => !s.isEmpty

/-- Python `str()` of a `PyVal`. -/
def pyStr : PyVal → String
  | .vNone => "None"
  | .vStr s => s

/-- Characters stripped by Python `str.strip()` / matched by
`str.isspace()`: the C whitespace characters `\t\n\v\f\r` (0x09-0x0d),
the separators 0x1c-0x1f, the space 0x20, and the Unicode whitespace
characters NEL (0x85), NBSP (0xa0), Ogham space (0x1680), the en-quad
through hair-space range (0x2000-0x200a), line and paragraph separators
(0x2028, 0x2029), narrow NBSP (0x202f), medium mathematical space
(0x205f) and ideographic space (0x3000) — the full CPython
`Py_UNICODE_ISSPACE` set. -/
def pyIsSpace (c : Char) : Bool :=
  (9 ≤ c.toNat && c.toNat ≤ 13) || (28 ≤ c.toNat && c.toNat ≤ 32) ||
  c.toNat = 0x85 || c.toNat = 0xa0 || c.toNat = 0x1680 ||
  (0x2000 ≤ c.toNat && c.toNat ≤ 0x200a) || c.toNat = 0x2028 ||
  c.toNat = 0x2029 || c.toNat = 0x202f || c.toNat = 0x205f ||
  c.toNat = 0x3000

/-- Python `str.strip()` on a character list. -/
def pyStripChars (s : List Char) : List Char :=
  ((s.dropWhile pyIsSpace).reverse.dropWhile pyIsSpace).reverse

/-- Python `str.strip()`. -/
def pyStrip (s : String) : String :=
  String.mk (pyStripChars s.toList)

/-- Truthiness of an optional string (Python `bool(d.get(k))`):
absent and empty are both falsy. -/
def optTruthy : Option String → Bool
  | none => false
  | some s => !s.isEmpty

/-- Python `str()` of an optional string: `str(None) = "None"`. -/
def pyStrOpt : Option String → String
  | none => "None"
  | some s => s

/-- Chunk metadata: an open string-keyed map with string values, as written
by `knowledge_bridge._build_metadata`. Modelled as an association list
(first binding wins, mirroring dict lookup). -/
def Metadata := List (String × String)
deriving DecidableEq

/-- Python `meta.get(key)` on a metadata map. -/
def metaGet (m : Metadata) (k : String) : Option String :=
  (List.find? (fun kv => kv.1 = k) m).map (·.2)

/-- Python `filters.get(key)`-style lookup on the caller's filters dict. -/
def dictGet (filters : List (String × PyVal)) (k : String) : Option PyVal :=
  (List.find? (fun kv => kv.1 = k) filters).map (·.2)

/-! ## Metadata filter language (`faiss_vector_store._matches_filter`)

The where clauses built by `rag_service` are either a single `{key: value}`
dict or `{"$and": [...]}`; the evaluator in the source also understands
`{"$or": [...]}`.  A plain dict is a conjunction of key/value equalities. -/

inductive WhereFilter where
  | simple (pairs : List (String × String))
  | wAnd (cs : List WhereFilter)
  | wOr (cs : List WhereFilter)

/-- `faiss_vector_store._matches_filter`: `$and` requires all sub-filters,
`$or` at least one, and a plain dict compares `str(metadata.get(key, ""))`
with the filter value (all values here are strings already). -/
def matchesFilter (meta : Metadata) : WhereFilter → Bool
  | .simple pairs => pairs.all (fun kv => ((metaGet meta kv.1).getD "") = kv.2)
  | .wAnd [] => true
  | .wAnd (c :: cs) => matchesFilter meta c && matchesFilter meta (.wAnd cs)
  | .wOr [] => false
  | .wOr (c :: cs) => matchesFilter meta c || matchesFilter meta (.wOr cs)

/-- Python truthiness of the optional where clause (`if where_filter`):
`None` and the empty dict are falsy. -/
def whereTruthy : Option WhereFilter → Bool
  | none => false
  | some (.simple []) => false
  | some _ => true

/-! ## `rag_service` filter construction -/

/-- The filterable metadata keys, from `rag_service._get_filterable_keys`:
the ForeignKey / identifier columns of the `Document` model in
`server/models.py` (`claim_id`, `user_id`, `policy_number`, plus the
identifiers `user_email`, `name`, `category`) united with the keys the
knowledge bridge always writes (`source`, `document_id`, `section_type`,
`user_id`, `claim_id`, `policy_number`, `user_email`, `category`). -/
def filterableKeys : List String :=
  ["claim_id", "user_id", "policy_number", "user_email", "name", "category",
   "source", "document_id", "section_type"]

/-- The `chroma_conditions` loop of `retrieve_context` (lines 167-185):
skip `None` values, skip `user_id`, skip `claim_id` when `claim_id_scope`
is set, keep recognised keys as `{key: str(value)}`, drop the rest. -/
def buildChromaConditions (filters : List (String × PyVal))
    (claim_id_scope : Option String) : List (String × String) :=
  filters.filterMap (fun kv =>
    match kv.2 with
    | .vNone => none
    | .vStr s =>
      if kv.1 = "user_id" then none
      else if kv.1 = "claim_id" && claim_id_scope.isSome then none
      else if kv.1 ∈ filterableKeys then some (kv.1, s)
      else none)

/-- Assembly of the final `where` dict (lines 188-192): none, a single
condition, or `{"$and": conditions}`. -/
def assembleWhere : List (String × String) → Option WhereFilter
  | [] => none
  | [c] => some (.simple [c])
  | cs => some (.wAnd (cs.map (fun c => .simple [c])))

/-! ## `rag_service.retrieve_context` -/

/-- Errors raised by `retrieve_context`. -/
inductive RagError where
  | emptyQuery : RagError
  | scopeViolation : RagError
deriving DecidableEq, Repr

/-- One raw result dict returned by `query_knowledge_base` /
`faiss_vector_store.query`: keys `id`, `text`, `metadata`, `distance`. -/
structure RawResult where
  id : String
  text : String
  metadata : Metadata
  distance : ℚ
deriving DecidableEq

/-- One chunk dict in the `chunks` list built by `retrieve_context`. -/
structure Chunk where
  id : String
  text : String
  metadata : Metadata
  distance : ℚ
  rank : ℕ
deriving DecidableEq

/-- The dict returned by `retrieve_context`. -/
structure RetrievalResult where
  context_text : String
  chunks : List Chunk
  total : ℕ
  applied_filters : Option WhereFilter

/-- Clamp applied to `n_results` (line 153): `max(1, min(n_results, 20))`. -/
def nResultsCap (n : ℤ) : ℤ := max 1 (min n 20)

/-- The three post-retrieval `continue` checks of `retrieve_context`
(lines 227-265), as a survival predicate on a candidate's metadata:
ownership (unless `admin_override`), the `allowed_base_sources` tab filter,
and the `claim_id_scope` post-filter. -/
def keepChunk (admin_override : Bool) (userScope : String)
    (allowed_base_sources : Option (List String))
    (claim_id_scope : Option String) (meta : Metadata) : Bool :=
  (admin_override ||
    -- drop iff `chunk_user and chunk_user != str(filters["user_id"])`
    !(optTruthy (metaGet meta "user_id") &&
      !((metaGet meta "user_id").getD "" = userScope))) &&
  (match allowed_base_sources with
   | none => true
   | some allowed =>
     -- drop iff `not meta.get("user_id") and chunk_source not in allowed`
     optTruthy (metaGet meta "user_id") ||
       decide (((metaGet meta "source").getD "") ∈ allowed)) &&
  (match claim_id_scope with
   | none => true
   | some cs =>
     if !optTruthy (metaGet meta "user_id") then
       -- base chunk: kept only with an allowed source
       match allowed_base_sources with
       | none => false
       | some allowed => decide (((metaGet meta "source").getD "") ∈ allowed)
     else
       -- owned chunk: `str(chunk_claim) != str(claim_id_scope)` drops it
       pyStrOpt (metaGet meta "claim_id") = cs)

/-- The surviving `(index, raw-result)` pairs of the post-retrieval loop,
with the 0-based loop index `i` from `enumerate(raw_results)`. -/
def survivingCandidates (admin_override : Bool) (userScope : String)
    (allowed_base_sources : Option (List String))
    (claim_id_scope : Option String) (raw : List RawResult) :
    List (ℕ × RawResult) :=
  raw.enum.filter
    (fun p => keepChunk admin_override userScope allowed_base_sources
      claim_id_scope p.2.metadata)

/-- The provenance block appended to `context_parts` for one survivor:
`[Source: … | Section: …]` followed by the text.  Defaults `unknown` /
`section` apply only when the key is absent (`meta.get(k, default)`). -/
def contextBlock (r : RawResult) : String :=
  "[Source: " ++ ((metaGet r.metadata "source").getD "unknown") ++
    " | Section: " ++ ((metaGet r.metadata "section_type").getD "section") ++
    "]\n" ++ r.text

/-- Python truthiness of `filters["user_id"]` when the key may be absent:
`"user_id" in filters and bool(filters["user_id"])`. -/
def optTruthyVal : Option PyVal → Bool
  | none => false
  | some v => pyTruthy v

/-- The post-validation body of `retrieve_context` (lines 153-289): clamp
`n_results`, build the where clause, query the knowledge base with the
stripped query, run the post-retrieval loop, and assemble the response
dict (`context_text`, `chunks`, `total`, `applied_filters`). -/
def retrieveAssemble (kb : String → ℤ → Option WhereFilter → List RawResult)
    (query : String) (filters : List (String × PyVal)) (n_results : ℤ)
    (admin_override : Bool) (allowed_base_sources : Option (List String))
    (claim_id_scope : Option String) : RetrievalResult :=
  let n := nResultsCap n_results
  let whereClause := assembleWhere (buildChromaConditions filters claim_id_scope)
  let raw := kb (pyStrip query) n whereClause
  let userScope := pyStr ((dictGet filters "user_id").getD .vNone)
  let survivors := survivingCandidates admin_override userScope
    allowed_base_sources claim_id_scope raw
  let chunks := survivors.map
    (fun p => Chunk.mk p.2.id p.2.text p.2.metadata p.2.distance (p.1 + 1))
  let parts := survivors.map (fun p => contextBlock p.2)
  RetrievalResult.mk (String.intercalate "\n\n---\n\n" parts) chunks
    chunks.length whereClause

/-- `rag_service.retrieve_context`, parametric in the knowledge-base query
function `kb` (the source calls `query_knowledge_base(query.strip(),
n_results, where_clause)`).  Validation happens before `kb` is consulted;
raising is modelled by `Except.error`. -/
def retrieve_context (kb : String → ℤ → Option WhereFilter → List RawResult)
    (query : String) (filters : List (String × PyVal)) (n_results : ℤ)
    (admin_override : Bool) (allowed_base_sources : Option (List String))
    (claim_id_scope : Option String) : Except RagError RetrievalResult :=
  -- `if not query or not query.strip(): raise EmptyQueryError`
  if query.isEmpty || (pyStrip query).isEmpty then
    .error .emptyQuery
  -- `if "user_id" not in filters or not filters["user_id"]: raise ScopeViolationError`
  else if !(optTruthyVal (dictGet filters "user_id")) then
    .error .scopeViolation
  else
    .ok (retrieveAssemble kb query filters n_results admin_override
      allowed_base_sources claim_id_scope)

/-! ## `faiss_vector_store`: the similarity index

`query` converts FAISS inner-product scores to distances with
`round(max(0.0, 1.0 - similarity), 4)`.  Python `round` is round-half-to-even,
modelled exactly on rationals. -/

/-- Round-half-to-even to an integer (Python `round(x)` semantics). -/
def roundHalfEven (q : ℚ) : ℤ :=
  if q - ⌊q⌋ < 1 / 2 then ⌊q⌋
  else if 1 / 2 < q - ⌊q⌋ then ⌊q⌋ + 1
  else if 2 ∣ ⌊q⌋ then ⌊q⌋ else ⌊q⌋ + 1

/-- Python `round(x, 4)`. -/
def round4 (q : ℚ) : ℚ := (roundHalfEven (q * 10000) : ℚ) / 10000

/-- One entry of the parallel `_metadata` array of the FAISS store:
`{"id": …, "text": …, "metadata": …}`. -/
structure FaissEntry where
  id : String
  text : String
  metadata : Metadata
deriving DecidableEq

/-- The result-collection loop of `faiss_vector_store.query` (lines
215-239): walk the `(similarity, index)` pairs returned by
`_index.search`, skip `-1` indices, skip chunks rejected by the
where-filter, convert each kept similarity to
`round(max(0.0, 1.0 - similarity), 4)`, and stop as soon as `n_results`
results have been collected.  `cnt` is `len(filtered_results)` so far.
(FAISS only ever reports `-1` or a valid row index, so the out-of-range
guard on the metadata lookup is never exercised by the source.) -/
def faissCollect (md : List FaissEntry) (wf : Option WhereFilter) (n : ℤ) :
    List (ℚ × ℤ) → ℤ → List RawResult
  | [], _ => []
  | (sim, idx) :: rest, cnt =>
    if idx = -1 then faissCollect md wf n rest cnt
    else
      match md.get? idx.toNat with
      | none => faissCollect md wf n rest cnt
      | some cd =>
        if whereTruthy wf && !(matchesFilter cd.metadata (wf.getD (.simple []))) then
          faissCollect md wf n rest cnt
        else if n ≤ cnt + 1 then
          [⟨cd.id, cd.text, cd.metadata, round4 (max 0 (1 - sim))⟩]
        else
          ⟨cd.id, cd.text, cd.metadata, round4 (max 0 (1 - sim))⟩ ::
            faissCollect md wf n rest (cnt + 1)

/-- `faiss_vector_store.query`, parametric in `search`, the function
`k ↦ _index.search(query_embedding, k)` (the external FAISS call, whose
contract is: scores are inner products of unit vectors, listed in
non-increasing score order).  `k = min(_index.ntotal, n_results * 10)`
over-fetches for filtering. -/
def faissQuery (ntotal : ℕ) (search : ℤ → List (ℚ × ℤ)) (md : List FaissEntry)
    (_query_text : String) (n_results : ℤ)
    (where_filter : Option WhereFilter) : List RawResult :=
  if ntotal = 0 then []
  else faissCollect md where_filter n_results
    (search (min (ntotal : ℤ) (n_results * 10))) 0

/-! ## `faiss_vector_store.upsert_chunks` and persistence -/

/-- The process state of the FAISS store: the in-memory `_index` vectors
and `_metadata` array, and the on-disk copies written by `_save_index`
(`faiss.index` + `metadata.json`).  The vector payload type is abstract. -/
structure FaissState (α : Type) where
  mem_metadata : List FaissEntry
  mem_vectors : List α
  disk_metadata : List FaissEntry
  disk_vectors : List α
deriving DecidableEq

/-- The `existing_ids` dict `{meta["id"]: idx for idx, meta in
enumerate(_metadata)}`: a later duplicate id overwrites an earlier one,
so the last index wins. -/
def lastIndexOf (l : List FaissEntry) (cid : String) : Option ℕ :=
  (l.enum.filterMap (fun p => if p.2.id = cid then some p.1 else none)).getLast?

/-- The per-chunk loop of `upsert_chunks` (lines 142-151): existing ids
have their metadata record replaced in place, new ids are accumulated
(in order) for encoding and appending. -/
def upsertSplit (existing : String → Option ℕ)
    (triples : List (String × String × Metadata))
    (ml : List FaissEntry) :
    List FaissEntry × List (String × String × Metadata) :=
  triples.foldl
    (fun acc t =>
      match existing t.1 with
      | some idx => (acc.1.set idx ⟨t.1, t.2.1, t.2.2⟩, acc.2)
      | none => (acc.1, acc.2 ++ [t]))
    (ml, [])

/-- `faiss_vector_store.upsert_chunks` (lines 113-174).  `encode` stands
for `model.encode` followed by `_normalize_vector` (the external
sentence-transformer).  New chunks are encoded, added to the index and
the metadata array, and then `_save_index()` persists both files; a batch
with no genuinely new ids skips the whole `if new_docs:` block, so the
disk copies are left untouched.  Returns the new state and
`len(_metadata)`. -/
def upsert_chunks {α : Type} (encode : String → α) (st : FaissState α)
    (ids : List String) (documents : List String)
    (metadatas : List Metadata) : FaissState α × ℕ :=
  let triples := ids.zip (documents.zip metadatas)
  let split := upsertSplit (lastIndexOf st.mem_metadata) triples st.mem_metadata
  if split.2.isEmpty then
    ({ st with mem_metadata := split.1 }, split.1.length)
  else
    let ml2 := split.1 ++ split.2.map (fun t => FaissEntry.mk t.1 t.2.1 t.2.2)
    let mv2 := st.mem_vectors ++ split.2.map (fun t => encode t.2.1)
    (FaissState.mk ml2 mv2 ml2 mv2, ml2.length)

/-! ## `vector_store._local_embedding`: the hashed n-gram embedding

`_local_embedding(text, dim=512)` lowercases and strips the text, finds
the words (`re.findall(r'[a-z0-9]+', …)`), and accumulates hashed word
unigrams (weight 3), word bigrams (weight 2) and character trigrams
(weight 1) into `dim` buckets, then divides by the L2 norm when it is
positive.  The MD5 bucket hash is abstracted as `hash : String → ℕ`; no
property below depends on its values. -/

/-- A character matched by the word regex `[a-z0-9]+` (on lowercased text). -/
def isWordChar (c : Char) : Bool :=
  ('a' ≤ c && c ≤ 'z') || ('0' ≤ c && c ≤ '9')

/-- Helper for the word regex: walk the characters keeping the current
run of word characters (reversed) in `acc`, flushing a completed run at
each non-word character and at the end. -/
def tokenizeWordsAux : List Char → List Char → List String
  | [], acc => if acc.isEmpty then [] else [String.mk acc.reverse]
  | c :: cs, acc =>
    if isWordChar c then tokenizeWordsAux cs (c :: acc)
    else if acc.isEmpty then tokenizeWordsAux cs []
    else String.mk acc.reverse :: tokenizeWordsAux cs []

/-- `re.findall(r'[a-z0-9]+', s)`: the maximal runs of word characters. -/
def tokenizeWords (l : List Char) : List String := tokenizeWordsAux l []

/-- The sliding windows `text_lower[i:i+3]` for `i < len - 2`. -/
def charTrigrams : List Char → List (List Char)
  | a :: b :: c :: rest => [a, b, c] :: charTrigrams (b :: c :: rest)
  | [_, _] => []
  | [_] => []
  | [] => []

/-- `vec[idx] += w` on a bucket list. -/
def bump (v : List ℚ) (idx : ℕ) (w : ℚ) : List ℚ :=
  v.set idx (v.getD idx 0 + w)

/-- The fixed embedding dimension of `_local_embedding` (`dim=512`). -/
def embeddingDim : ℕ := 512

/-- The un-normalized feature vector of `_local_embedding`: word unigrams
(weight 3), word bigrams joined by `_` (weight 2), and non-whitespace
character trigrams (weight 1), each hashed into one of `dim` buckets. -/
def rawEmbedding (hash : String → ℕ) (text : String) : List ℚ :=
  let tl := pyStripChars (text.toList.map Char.toLower)
  let ws := tokenizeWords tl
  let v0 := List.replicate embeddingDim (0 : ℚ)
  let v1 := ws.foldl (fun v w => bump v (hash w % embeddingDim) 3) v0
  let v2 := (ws.zip ws.tail).foldl
    (fun v p => bump v (hash (p.1 ++ "_" ++ p.2) % embeddingDim) 2) v1
  ((charTrigrams tl).filter (fun t => t.any (fun c => !(pyIsSpace c)))).foldl
    (fun v t => bump v (hash (String.mk t) % embeddingDim) 1) v2

/-- Squared L2 norm of a rational vector. -/
def normSq (v : List ℚ) : ℚ := (v.map (fun x => x * x)).sum

/-- Squared L2 norm of a real vector. -/
def normSqR (v : List ℝ) : ℝ := (v.map (fun x => x * x)).sum

/-- `faiss_vector_store._normalize_vector` (and the final normalization
step of `_local_embedding`): divide by the L2 norm if it is positive,
otherwise return the vector unchanged. -/
noncomputable def normalize_vector (v : List ℝ) : List ℝ :=
  if 0 < Real.sqrt (normSqR v) then v.map (fun x => x / Real.sqrt (normSqR v))
  else v

/-- `vector_store._local_embedding` (= `_get_embedding`): the hashed
feature vector, L2-normalized when its norm is positive. -/
noncomputable def localEmbedding (hash : String → ℕ) (text : String) :
    List ℝ :=
  normalize_vector ((rawEmbedding hash text).map (fun q : ℚ => (q : ℝ)))

/-! ## Embedding-backend selection

`faiss_vector_store` begins with unconditional module-level imports
(`import faiss`, `from sentence_transformers import SentenceTransformer`,
lines 14-20); there is no `try/except` and no capability probe, so when
the sentence-transformer library or model is unavailable the module
fails instead of switching strategies.  The hashed n-gram fallback lives
in `vector_store.py` (`_get_embedding` always calls `_local_embedding`),
but no module in the repository imports `vector_store`; the retrieval
path (`knowledge_bridge.query_knowledge_base`) imports
`faiss_vector_store` directly. -/

inductive EmbeddingBackend where
  | sentenceTransformer : EmbeddingBackend
  | hashedNGram : EmbeddingBackend
deriving DecidableEq, Repr

/-- Initialization of the active embedding backend, given whether the
sentence-transformer model can be loaded: `faiss_vector_store` uses the
learned encoder unconditionally and otherwise fails with the import /
load error — no fallback selection exists in the source. -/
def faissBackendInit (modelAvailable : Bool) :
    Except String EmbeddingBackend :=
  if modelAvailable then .ok .sentenceTransformer
  else .error "ImportError: sentence_transformers"

/-- The FAISS store dimension (`_embedding_dim = 384`, all-MiniLM-L6-v2). -/
def faissEmbeddingDim : ℕ := 384

/-! ## Observation helpers and concrete fixtures for the claims -/

/-- Whether a where filter contains a condition on the given key. -/
def filterHasKey (k : String) : WhereFilter → Bool
  | .simple pairs => pairs.any (fun kv => kv.1 = k)
  | .wAnd [] => false
  | .wAnd (c :: cs) => filterHasKey k c || filterHasKey k (.wAnd cs)
  | .wOr [] => false
  | .wOr (c :: cs) => filterHasKey k c || filterHasKey k (.wOr cs)

/-- The `chunks` list of a retrieval outcome (empty on an error). -/
def resultChunks : Except RagError RetrievalResult → List Chunk
  | .ok r => r.chunks
  | .error _ => []

/-- The error raised by a retrieval outcome, if any. -/
def raisedError : Except RagError RetrievalResult → Option RagError
  | .ok _ => none
  | .error e => some e

/-- A knowledge base returning no candidates. -/
def kbEmpty : String → ℤ → Option WhereFilter → List RawResult :=
  fun _ _ _ => []

/-- A knowledge base whose single candidate is owned by `u1`. -/
def kbOwn : String → ℤ → Option WhereFilter → List RawResult :=
  fun _ _ _ => [⟨"c1", "t1", [("user_id", "u1")], 0⟩]

/-- A knowledge base whose single candidate carries a *present but empty*
`user_id` metadata value. -/
def kbEmptyOwner : String → ℤ → Option WhereFilter → List RawResult :=
  fun _ _ _ => [⟨"c1", "t1", [("user_id", "")], 0⟩]

/-- A knowledge base whose single candidate is owned by `u1` and has no
`claim_id` metadata key at all. -/
def kbNoClaimId : String → ℤ → Option WhereFilter → List RawResult :=
  fun _ _ _ => [⟨"c1", "t1", [("user_id", "u1")], 0⟩]

/-- A knowledge base returning a foreign-owned candidate before an owned
one, so the ownership post-filter drops the first candidate. -/
def kbRankGap : String → ℤ → Option WhereFilter → List RawResult :=
  fun _ _ _ =>
    [⟨"c1", "t1", [("user_id", "u2")], 0⟩,
     ⟨"c2", "t2", [("user_id", "u1")], (1 : ℚ)/10⟩]

/-- Scenario D data: shared chunk `a` (source `Drive.pdf`, no owner),
owned chunk `b` (`u1`, claim `CLM-1`), owned chunk `c` (`u1`, claim
`CLM-2`). -/
def kbScenarioD : String → ℤ → Option WhereFilter → List RawResult :=
  fun _ _ _ =>
    [⟨"a", "vehicle coverage", [("source", "Drive.pdf")], 0⟩,
     ⟨"b", "claim approved",
       [("user_id", "u1"), ("claim_id", "CLM-1"), ("source", "B.pdf")],
       (1 : ℚ)/10⟩,
     ⟨"c", "claim rejected",
       [("user_id", "u1"), ("claim_id", "CLM-2"), ("source", "C.pdf")],
       (2 : ℚ)/10⟩]

/-- A store state whose disk copies agree with memory (as after a save),
holding one chunk `a`. -/
def stSaved : FaissState ℚ :=
  ⟨[⟨"a", "t1", []⟩], [1], [⟨"a", "t1", []⟩], [1]⟩

/-- A stand-in encoder for persistence fixtures. -/
def encodeZero : String → ℚ := fun _ => 0

/-- A stand-in bucket hash (the property proved is hash-independent). -/
def hashZero : String → ℕ := fun _ => 0

/-- A FAISS search returning one hit with similarity `2/3`. -/
def searchTwoThirds : ℤ → List (ℚ × ℤ) := fun _ => [((2 : ℚ)/3, 0)]

/-- A FAISS search returning two hits with similarities `1/2 ≥ -1/2`. -/
def searchTwoHits : ℤ → List (ℚ × ℤ) :=
  fun _ => [((1 : ℚ)/2, 0), (-(1 : ℚ)/2, 0)]

/-- A one-entry metadata array for the FAISS query fixtures. -/
def mdSingle : List FaissEntry := [⟨"a", "t", []⟩]

/-! ## Helper lemmas -/

theorem pyStripChars_eq_nil_iff (l : List Char) :
    pyStripChars l = [] ↔ l.all pyIsSpace = true := by
  unfold pyStripChars
  constructor
  · intro h
    rw [List.reverse_eq_nil_iff, List.dropWhile_eq_nil_iff] at h
    have h2 : ∀ x ∈ l.dropWhile pyIsSpace, pyIsSpace x := by
      intro x hx
      exact h x (List.mem_reverse.mpr hx)
    rw [List.all_eq_true]
    intro x hx
    rw [← List.takeWhile_append_dropWhile (p := pyIsSpace) (l := l)] at hx
    rcases List.mem_append.mp hx with h1 | h1
    · exact List.mem_takeWhile_imp h1
    · exact h2 x h1
  · intro h
    have h1 : l.dropWhile pyIsSpace = [] := by
      rw [List.dropWhile_eq_nil_iff]
      intro x hx
      exact List.all_eq_true.mp h x hx
    simp [h1]

theorem queryBlank_iff (s : String) :
    (s.isEmpty || (pyStrip s).isEmpty) = true ↔ s.toList.all pyIsSpace = true := by
  constructor
  · intro h
    rcases Bool.or_eq_true_iff.mp h with h1 | h1
    · have hs : s = "" := (String.isEmpty_iff _).mp h1
      subst hs
      rfl
    · have hs : pyStrip s = "" := (String.isEmpty_iff _).mp h1
      unfold pyStrip at hs
      have hd : pyStripChars s.toList = [] := congrArg String.toList hs
      exact (pyStripChars_eq_nil_iff _).mp hd
  · intro h
    apply Bool.or_eq_true_iff.mpr
    right
    rw [String.isEmpty_iff]
    unfold pyStrip
    rw [(pyStripChars_eq_nil_iff _).mpr h]

theorem retrieve_context_ok_elim
    (kb : String → ℤ → Option WhereFilter → List RawResult)
    (query : String) (filters : List (String × PyVal)) (n_results : ℤ)
    (admin_override : Bool) (allowed_base_sources : Option (List String))
    (claim_id_scope : Option String) (r : RetrievalResult)
    (h : retrieve_context kb query filters n_results admin_override
      allowed_base_sources claim_id_scope = .ok r) :
    r = retrieveAssemble kb query filters n_results admin_override
      allowed_base_sources claim_id_scope := by
  unfold retrieve_context at h
  split at h
  · exact Except.noConfusion h
  · split at h
    · exact Except.noConfusion h
    · injection h with h2
      exact h2.symm

theorem retrieveAssemble_chunks
    (kb : String → ℤ → Option WhereFilter → List RawResult)
    (query : String) (filters : List (String × PyVal)) (n_results : ℤ)
    (admin_override : Bool) (allowed_base_sources : Option (List String))
    (claim_id_scope : Option String) :
    (retrieveAssemble kb query filters n_results admin_override
      allowed_base_sources claim_id_scope).chunks =
    (survivingCandidates admin_override
        (pyStr ((dictGet filters "user_id").getD .vNone))
        allowed_base_sources claim_id_scope
        (kb (pyStrip query) (nResultsCap n_results)
          (assembleWhere (buildChromaConditions filters claim_id_scope)))).map
      (fun p => Chunk.mk p.2.id p.2.text p.2.metadata p.2.distance (p.1 + 1)) :=
  rfl

theorem retrieveAssemble_applied
    (kb : String → ℤ → Option WhereFilter → List RawResult)
    (query : String) (filters : List (String × PyVal)) (n_results : ℤ)
    (admin_override : Bool) (allowed_base_sources : Option (List String))
    (claim_id_scope : Option String) :
    (retrieveAssemble kb query filters n_results admin_override
      allowed_base_sources claim_id_scope).applied_filters =
    assembleWhere (buildChromaConditions filters claim_id_scope) :=
  rfl

theorem mem_chunks_elim (admin_override : Bool) (userScope : String)
    (allowed_base_sources : Option (List String))
    (claim_id_scope : Option String) (raw : List RawResult) (c : Chunk)
    (hc : c ∈ (survivingCandidates admin_override userScope
        allowed_base_sources claim_id_scope raw).map
      (fun p => Chunk.mk p.2.id p.2.text p.2.metadata p.2.distance (p.1 + 1))) :
    ∃ p ∈ raw.enum,
      keepChunk admin_override userScope allowed_base_sources claim_id_scope
        p.2.metadata = true ∧
      c = Chunk.mk p.2.id p.2.text p.2.metadata p.2.distance (p.1 + 1) := by
  obtain ⟨p, hp, rfl⟩ := List.mem_map.mp hc
  obtain ⟨hpm, hpk⟩ := List.mem_filter.mp hp
  exact ⟨p, hpm, hpk, rfl⟩

theorem keepChunk_ownership (userScope : String)
    (allowed_base_sources : Option (List String))
    (claim_id_scope : Option String) (meta : Metadata)
    (h : keepChunk false userScope allowed_base_sources claim_id_scope
      meta = true) :
    optTruthy (metaGet meta "user_id") = false ∨
      metaGet meta "user_id" = some userScope := by
  unfold keepChunk at h
  rw [Bool.and_eq_true, Bool.and_eq_true] at h
  have h1 := h.1.1
  rw [Bool.false_or, Bool.not_eq_true', Bool.and_eq_false_iff] at h1
  rcases h1 with h1 | h1
  · exact Or.inl h1
  · simp only [Bool.not_eq_false', decide_eq_true_eq] at h1
    cases hm : metaGet meta "user_id" with
    | none => exact Or.inl rfl
    | some u =>
      right
      rw [hm] at h1
      simp only [Option.getD_some] at h1
      rw [h1]

theorem keepChunk_claimScope (admin_override : Bool) (userScope : String)
    (allowed_base_sources : Option (List String)) (cs : String)
    (meta : Metadata)
    (h : keepChunk admin_override userScope allowed_base_sources (some cs)
      meta = true) :
    (optTruthy (metaGet meta "user_id") = true ∧
      pyStrOpt (metaGet meta "claim_id") = cs) ∨
    (optTruthy (metaGet meta "user_id") = false ∧
      ∃ allowed, allowed_base_sources = some allowed ∧
        ((metaGet meta "source").getD "") ∈ allowed) := by
  unfold keepChunk at h
  rw [Bool.and_eq_true, Bool.and_eq_true] at h
  have h3 := h.2
  cases hu : optTruthy (metaGet meta "user_id") with
  | false =>
    right
    refine ⟨rfl, ?_⟩
    rw [hu] at h3
    simp only [Bool.not_false, if_true] at h3
    cases habs : allowed_base_sources with
    | none => rw [habs] at h3; exact absurd h3 (by simp)
    | some allowed =>
      rw [habs] at h3
      exact ⟨allowed, rfl, of_decide_eq_true h3⟩
  | true =>
    left
    refine ⟨rfl, ?_⟩
    rw [hu] at h3
    simp only [Bool.not_true, if_false] at h3
    exact of_decide_eq_true h3

theorem buildChroma_no_claim_key (filters : List (String × PyVal))
    (cs : String) :
    ∀ kv ∈ buildChromaConditions filters (some cs), kv.1 ≠ "claim_id" := by
  intro kv hkv
  obtain ⟨x, _, hfx⟩ := List.mem_filterMap.mp hkv
  cases hx2 : x.2 with
  | vNone => rw [hx2] at hfx; exact Option.noConfusion hfx
  | vStr s =>
    rw [hx2] at hfx
    simp only at hfx
    split_ifs at hfx with h1 h2 h3
    injection hfx with hkv2
    subst hkv2
    intro hk
    apply h2
    rw [Bool.and_eq_true]
    exact ⟨decide_eq_true hk, Option.isSome_some⟩

theorem filterHasKey_wAnd_singles (k : String) (l : List (String × String))
    (hk : ∀ kv ∈ l, kv.1 ≠ k) :
    filterHasKey k (.wAnd (l.map (fun c => .simple [c]))) = false := by
  induction l with
  | nil => simp only [List.map_nil]; simp [filterHasKey]
  | cons a t ih =>
    simp only [List.map_cons]
    unfold filterHasKey
    rw [Bool.or_eq_false_iff]
    constructor
    · unfold filterHasKey
      simp only [List.any_cons, List.any_nil, Bool.or_false]
      exact decide_eq_false (hk a (List.mem_cons_self a t))
    · exact ih (fun kv hkv => hk kv (List.mem_cons_of_mem a hkv))

theorem assembleWhere_no_key (conds : List (String × String)) (k : String)
    (hk : ∀ kv ∈ conds, kv.1 ≠ k) :
    ∀ w, assembleWhere conds = some w → filterHasKey k w = false := by
  intro w hw
  match conds, hw with
  | [c], hw =>
    injection hw with hw2
    subst hw2
    unfold filterHasKey
    simp only [List.any_cons, List.any_nil, Bool.or_false]
    exact decide_eq_false (hk c (List.mem_cons_self c []))
  | c1 :: c2 :: rest, hw =>
    injection hw with hw2
    subst hw2
    exact filterHasKey_wAnd_singles k (c1 :: c2 :: rest) hk

theorem pairwise_fst_lt_enumFrom {α : Type} (n : ℕ) (l : List α) :
    (List.enumFrom n l).Pairwise (fun a b => a.1 < b.1) := by
  induction l generalizing n with
  | nil => exact List.Pairwise.nil
  | cons x xs ih =>
    rw [List.enumFrom_cons]
    refine List.Pairwise.cons ?_ (ih (n + 1))
    intro p hp
    have := List.le_fst_of_mem_enumFrom hp
    omega

theorem pairwise_fst_lt_enum {α : Type} (l : List α) :
    l.enum.Pairwise (fun a b => a.1 < b.1) :=
  pairwise_fst_lt_enumFrom 0 l

/-! ## Claim C1: ownership post-filter -/

/-- C1 (counterexample): the claim as stated is false: with
`admin_override = false`, a candidate whose metadata carries a *present
but empty* `user_id` value survives the ownership post-filter (Python
truthiness: `chunk_user and …` is skipped for `""`), yet it neither lacks
the `user_id` key nor matches the caller's owner scope `"u1"`. -/
theorem c1_counterexample :
    ¬ (∀ c ∈ resultChunks (retrieve_context kbEmptyOwner "q"
        [("user_id", PyVal.vStr "u1")] 5 false none none),
      metaGet c.metadata "user_id" = none ∨
      metaGet c.metadata "user_id" = some "u1") := by
  decide

/-- C1 (amended): for every normally-returning call with
`admin_override = false`, every returned chunk either has a *falsy*
`user_id` metadata value (absent key or empty string — a shared/base
chunk), or its `user_id` equals `str(filters["user_id"])`; any candidate
with a different non-empty owner is dropped. -/
theorem c1_ownership_enforced
    (kb : String → ℤ → Option WhereFilter → List RawResult)
    (q : String) (filters : List (String × PyVal)) (n : ℤ)
    (abs : Option (List String)) (cis : Option String) (r : RetrievalResult)
    (h : retrieve_context kb q filters n false abs cis = .ok r) :
    ∀ c ∈ r.chunks,
      optTruthy (metaGet c.metadata "user_id") = false ∨
      metaGet c.metadata "user_id" =
        some (pyStr ((dictGet filters "user_id").getD PyVal.vNone)) := by
  intro c hc
  rw [retrieve_context_ok_elim kb q filters n false abs cis r h,
    retrieveAssemble_chunks] at hc
  obtain ⟨p, _, hpk, rfl⟩ := mem_chunks_elim false
    (pyStr ((dictGet filters "user_id").getD PyVal.vNone)) abs cis _ c hc
  exact keepChunk_ownership _ abs cis p.2.metadata hpk

/-- C1 (witness): the concrete owned chunk of `u1` retrieved by `u1`
satisfies the ownership property. -/
theorem c1_ownership_enforced_witness :
    optTruthy (metaGet (Chunk.mk "c1" "t1" [("user_id", "u1")] 0 1).metadata
      "user_id") = false ∨
    metaGet (Chunk.mk "c1" "t1" [("user_id", "u1")] 0 1).metadata "user_id" =
      some (pyStr ((dictGet [("user_id", PyVal.vStr "u1")] "user_id").getD
        PyVal.vNone)) :=
  c1_ownership_enforced kbOwn "q" [("user_id", PyVal.vStr "u1")] 5
    none none _ rfl (Chunk.mk "c1" "t1" [("user_id", "u1")] 0 1)
    (List.mem_singleton_self _)

/-! ## Claim C2: missing owner scope -/

/-- C2 (counterexample): the claim as stated is false for the empty query:
the blank-query check runs first, so `retrieve_context("", {})` raises
`EmptyQueryError`, not `ScopeViolationError`. -/
theorem c2_counterexample :
    raisedError (retrieve_context kbEmpty "" [] 5 false none none) ≠
      some RagError.scopeViolation ∧
    raisedError (retrieve_context kbEmpty "" [] 5 false none none) =
      some RagError.emptyQuery := by
  decide

/-- C2 (amended): for every query with at least one non-whitespace
character and every filters dict whose `user_id` is absent or falsy,
`retrieve_context` raises `ScopeViolationError` regardless of
`admin_override` and the other arguments, and independently of the
knowledge base (it is never consulted). -/
theorem c2_scope_violation
    (kb : String → ℤ → Option WhereFilter → List RawResult)
    (q : String) (filters : List (String × PyVal)) (n : ℤ) (ao : Bool)
    (abs : Option (List String)) (cis : Option String)
    (hq : q.toList.all pyIsSpace = false)
    (hf : optTruthyVal (dictGet filters "user_id") = false) :
    retrieve_context kb q filters n ao abs cis =
      .error .scopeViolation := by
  have hA : ¬ ((q.isEmpty || (pyStrip q).isEmpty) = true) := by
    intro hb
    rw [(queryBlank_iff q).mp hb] at hq
    exact Bool.noConfusion hq
  have hB : (!(optTruthyVal (dictGet filters "user_id"))) = true := by
    rw [hf]
    rfl
  unfold retrieve_context
  rw [if_neg hA, if_pos hB]

/-- C2 (witness): a non-blank query with empty filters raises the scope
violation. -/
theorem c2_scope_violation_witness :
    retrieve_context kbEmpty "hi" [] 5 false none none =
      .error .scopeViolation :=
  c2_scope_violation kbEmpty "hi" [] 5 false none none (by decide) (by decide)

/-! ## Claim C3: blank-query rejection -/

/-- C3: for every query that is empty or whitespace-only,
`retrieve_context` raises `EmptyQueryError` for every knowledge base
(so before any index access) and regardless of the other arguments; for
every query with a non-whitespace character the error is never raised. -/
theorem c3_empty_query
    (kb : String → ℤ → Option WhereFilter → List RawResult)
    (q : String) (filters : List (String × PyVal)) (n : ℤ) (ao : Bool)
    (abs : Option (List String)) (cis : Option String) :
    (q.toList.all pyIsSpace = true →
      retrieve_context kb q filters n ao abs cis = .error .emptyQuery) ∧
    (q.toList.all pyIsSpace = false →
      retrieve_context kb q filters n ao abs cis ≠ .error .emptyQuery) := by
  constructor
  · intro hq
    unfold retrieve_context
    rw [if_pos ((queryBlank_iff q).mpr hq)]
  · intro hq hcontra
    have hA : ¬ ((q.isEmpty || (pyStrip q).isEmpty) = true) := by
      intro hb
      rw [(queryBlank_iff q).mp hb] at hq
      exact Bool.noConfusion hq
    unfold retrieve_context at hcontra
    rw [if_neg hA] at hcontra
    split at hcontra
    · injection hcontra with h2
      exact RagError.noConfusion h2
    · exact Except.noConfusion hcontra

/-- C3 (witness): a whitespace query errors with `EmptyQueryError`; a
non-blank one does not. -/
theorem c3_empty_query_witness :
    retrieve_context kbEmpty " \t" [] 5 false none none =
      .error .emptyQuery ∧
    retrieve_context kbEmpty "hi" [] 5 false none none ≠
      .error .emptyQuery :=
  ⟨(c3_empty_query kbEmpty " \t" [] 5 false none none).1 (by decide),
   (c3_empty_query kbEmpty "hi" [] 5 false none none).2 (by decide)⟩

/-! ## Claim C4: claim-id scoping -/

/-- C4 (counterexample): the claim as stated is false: with
`claim_id_scope = "None"`, an owned chunk with *no* `claim_id` metadata
key is kept, because the code compares `str(chunk_claim)`, and
`str(None) = "None"` matches the scope; the kept chunk has neither a
`claim_id` equal to the scope nor is it a shared/base chunk. -/
theorem c4_counterexample :
    ¬ (∀ c ∈ resultChunks (retrieve_context kbNoClaimId "q"
        [("user_id", PyVal.vStr "u1")] 5 false (some ["S"]) (some "None")),
      metaGet c.metadata "claim_id" = some "None" ∨
      (metaGet c.metadata "user_id" = none ∧
        ((metaGet c.metadata "source").getD "") ∈ ["S"])) := by
  decide

/-- C4 (amended): with `claim_id_scope` set, the where clause sent to the
index contains no `claim_id` condition, and every returned chunk either
has a truthy `user_id` and `str(claim_id)` (with a missing key rendered
`"None"`) equal to the scope, or has a falsy `user_id` (shared/base) and
a source in `allowed_base_sources`. -/
theorem c4_claim_scoping
    (kb : String → ℤ → Option WhereFilter → List RawResult)
    (q : String) (filters : List (String × PyVal)) (n : ℤ) (ao : Bool)
    (abs : Option (List String)) (cs : String) (r : RetrievalResult)
    (h : retrieve_context kb q filters n ao abs (some cs) = .ok r) :
    (∀ w, r.applied_filters = some w → filterHasKey "claim_id" w = false) ∧
    (∀ c ∈ r.chunks,
      (optTruthy (metaGet c.metadata "user_id") = true ∧
        pyStrOpt (metaGet c.metadata "claim_id") = cs) ∨
      (optTruthy (metaGet c.metadata "user_id") = false ∧
        ∃ allowed, abs = some allowed ∧
          ((metaGet c.metadata "source").getD "") ∈ allowed)) := by
  rw [retrieve_context_ok_elim kb q filters n ao abs (some cs) r h]
  constructor
  · rw [retrieveAssemble_applied]
    exact assembleWhere_no_key _ "claim_id"
      (buildChroma_no_claim_key filters cs)
  · intro c hc
    rw [retrieveAssemble_chunks] at hc
    obtain ⟨p, _, hpk, rfl⟩ := mem_chunks_elim ao
      (pyStr ((dictGet filters "user_id").getD PyVal.vNone)) abs (some cs)
      _ c hc
    exact keepChunk_claimScope ao _ abs cs p.2.metadata hpk

/-- C4 (witness, scenario D): the where clause built from a
`policy_number` filter carries no `claim_id` condition, and with scope
`CLM-1` and allowed shared source `Drive.pdf` the shared chunk `a` and
the owned chunk `b` (claim `CLM-1`) are returned while the chunk with
claim `CLM-2` is excluded. -/
theorem c4_claim_scoping_witness :
    filterHasKey "claim_id"
      (WhereFilter.simple [("policy_number", "P1")]) = false ∧
    (resultChunks (retrieve_context kbScenarioD "claim"
        [("user_id", PyVal.vStr "u1"), ("policy_number", PyVal.vStr "P1")]
        5 false (some ["Drive.pdf"]) (some "CLM-1"))).map Chunk.id =
      ["a", "b"] := by
  constructor
  · exact (c4_claim_scoping kbScenarioD "claim"
      [("user_id", PyVal.vStr "u1"), ("policy_number", PyVal.vStr "P1")]
      5 false (some ["Drive.pdf"]) "CLM-1" _ rfl).1
      (WhereFilter.simple [("policy_number", "P1")]) rfl
  · decide

/-! ## Claim C7: ordering and ranks -/

/-- C7 (counterexample): the claim as stated is false: ranks are the
1-based positions in the *raw* candidate list (`enumerate(raw_results)`),
so when the first candidate is dropped by the ownership filter, the lone
surviving chunk carries rank 2 while the claim requires ranks 1..total. -/
theorem c7_counterexample :
    ¬ ((resultChunks (retrieve_context kbRankGap "q"
        [("user_id", PyVal.vStr "u1")] 5 false none none)).map Chunk.rank =
      List.range' 1 (resultChunks (retrieve_context kbRankGap "q"
        [("user_id", PyVal.vStr "u1")] 5 false none none)).length) := by
  decide

/-- C7 (amended): the surviving chunks keep the raw candidate order (so
their distances are ascending whenever the raw distances are), and each
chunk's rank is its 1-based position among the raw candidates: ranks are
strictly increasing and bounded by the raw candidate count, but may have
gaps where the post-filters dropped candidates. -/
theorem c7_rank_order
    (kb : String → ℤ → Option WhereFilter → List RawResult)
    (q : String) (filters : List (String × PyVal)) (n : ℤ) (ao : Bool)
    (abs : Option (List String)) (cis : Option String) (r : RetrievalResult)
    (h : retrieve_context kb q filters n ao abs cis = .ok r) :
    (r.chunks.map Chunk.rank).Pairwise (· < ·) ∧
    (∀ c ∈ r.chunks, 1 ≤ c.rank ∧
      c.rank ≤ (kb (pyStrip q) (nResultsCap n)
        (assembleWhere (buildChromaConditions filters cis))).length) ∧
    (((kb (pyStrip q) (nResultsCap n)
        (assembleWhere (buildChromaConditions filters cis))).map
      RawResult.distance).Pairwise (· ≤ ·) →
      (r.chunks.map Chunk.distance).Pairwise (· ≤ ·)) := by
  rw [retrieve_context_ok_elim kb q filters n ao abs cis r h,
    retrieveAssemble_chunks]
  set raw := kb (pyStrip q) (nResultsCap n)
    (assembleWhere (buildChromaConditions filters cis)) with hraw
  set keep := fun p : ℕ × RawResult =>
    keepChunk ao (pyStr ((dictGet filters "user_id").getD PyVal.vNone))
      abs cis p.2.metadata with hkeep
  refine ⟨?_, ?_, ?_⟩
  · rw [List.map_map]
    rw [List.pairwise_map]
    have hpw : (raw.enum.filter keep).Pairwise (fun a b => a.1 < b.1) :=
      (pairwise_fst_lt_enum raw).filter keep
    exact hpw.imp (fun hab => by
      simp only [Function.comp]
      omega)
  · intro c hc
    obtain ⟨p, hpm, _, rfl⟩ := mem_chunks_elim ao
      (pyStr ((dictGet filters "user_id").getD PyVal.vNone)) abs cis raw c hc
    have hlt : p.1 < raw.length := by
      have := List.fst_lt_add_of_mem_enumFrom hpm
      simpa using this
    constructor
    · show 1 ≤ p.1 + 1
      omega
    · show p.1 + 1 ≤ raw.length
      omega
  · intro hsorted
    rw [List.map_map]
    have hsub : ((raw.enum.filter keep).map
        (Chunk.distance ∘ fun p : ℕ × RawResult =>
          Chunk.mk p.2.id p.2.text p.2.metadata p.2.distance (p.1 + 1))).Sublist
        (raw.map RawResult.distance) := by
      have h1 : (raw.enum.filter keep).Sublist raw.enum :=
        List.filter_sublist _
      have h2 := h1.map (fun p : ℕ × RawResult => p.2.distance)
      have h3 : raw.enum.map (fun p : ℕ × RawResult => p.2.distance) =
          raw.map RawResult.distance := by
        rw [show (fun p : ℕ × RawResult => p.2.distance) =
          RawResult.distance ∘ Prod.snd from rfl, ← List.map_map,
          List.enum_map_snd]
      rw [h3] at h2
      exact h2
    exact hsorted.sublist hsub

/-- C7 (witness): on the rank-gap fixture the surviving ranks are strictly
increasing. -/
theorem c7_rank_order_witness :
    ((resultChunks (retrieve_context kbRankGap "q"
      [("user_id", PyVal.vStr "u1")] 5 false none none)).map
      Chunk.rank).Pairwise (· < ·) :=
  (c7_rank_order kbRankGap "q" [("user_id", PyVal.vStr "u1")] 5 false
    none none _ rfl).1

/-! ## Claim C5: upsert persistence -/

/-- C5 (counterexample): the claim as stated is false: an upsert whose
batch contains only already-existing ids mutates the in-memory metadata
(the text becomes `t2`) but skips `_save_index()`, leaving the on-disk
metadata stale (`t1`), so disk and memory disagree after the call. -/
theorem c5_counterexample :
    (upsert_chunks encodeZero stSaved ["a"] ["t2"] [[]]).1.disk_metadata ≠
      (upsert_chunks encodeZero stSaved ["a"] ["t2"] [[]]).1.mem_metadata ∧
    (upsert_chunks encodeZero stSaved ["a"] ["t2"] [[]]).1.mem_metadata =
      [⟨"a", "t2", []⟩] ∧
    (upsert_chunks encodeZero stSaved ["a"] ["t2"] [[]]).1.disk_metadata =
      [⟨"a", "t1", []⟩] := by
  decide

/-- C5 (amended): an upsert persists exactly when its batch contains at
least one genuinely new id: in that case the on-disk index and metadata
equal the in-memory ones after the call; a batch of only existing ids
leaves the disk copies (and the in-memory vectors) unchanged while the
in-memory metadata is still mutated. -/
theorem c5_upsert_persistence {α : Type} (encode : String → α)
    (st : FaissState α) (ids documents : List String)
    (metadatas : List Metadata) :
    ((upsertSplit (lastIndexOf st.mem_metadata)
        (ids.zip (documents.zip metadatas)) st.mem_metadata).2 ≠ [] →
      (upsert_chunks encode st ids documents metadatas).1.disk_metadata =
        (upsert_chunks encode st ids documents metadatas).1.mem_metadata ∧
      (upsert_chunks encode st ids documents metadatas).1.disk_vectors =
        (upsert_chunks encode st ids documents metadatas).1.mem_vectors) ∧
    ((upsertSplit (lastIndexOf st.mem_metadata)
        (ids.zip (documents.zip metadatas)) st.mem_metadata).2 = [] →
      (upsert_chunks encode st ids documents metadatas).1.disk_metadata =
        st.disk_metadata ∧
      (upsert_chunks encode st ids documents metadatas).1.disk_vectors =
        st.disk_vectors ∧
      (upsert_chunks encode st ids documents metadatas).1.mem_metadata =
        (upsertSplit (lastIndexOf st.mem_metadata)
          (ids.zip (documents.zip metadatas)) st.mem_metadata).1) := by
  constructor
  · intro hnew
    unfold upsert_chunks
    rw [if_neg (by
      intro hcontra
      exact hnew (List.isEmpty_iff.mp hcontra))]
    exact ⟨rfl, rfl⟩
  · intro hnone
    unfold upsert_chunks
    rw [if_pos (List.isEmpty_iff.mpr hnone)]
    exact ⟨rfl, rfl, rfl⟩

/-- C5 (witness): a batch with the new id `b` persists (disk = memory);
a batch with only the existing id `a` does not touch the disk copy. -/
theorem c5_upsert_persistence_witness :
    ((upsert_chunks encodeZero stSaved ["a", "b"] ["t2", "t3"]
        [[], []]).1.disk_metadata =
      (upsert_chunks encodeZero stSaved ["a", "b"] ["t2", "t3"]
        [[], []]).1.mem_metadata ∧
     (upsert_chunks encodeZero stSaved ["a", "b"] ["t2", "t3"]
        [[], []]).1.disk_vectors =
      (upsert_chunks encodeZero stSaved ["a", "b"] ["t2", "t3"]
        [[], []]).1.mem_vectors) ∧
    (upsert_chunks encodeZero stSaved ["a"] ["t2"] [[]]).1.disk_metadata =
      stSaved.disk_metadata :=
  ⟨(c5_upsert_persistence encodeZero stSaved ["a", "b"] ["t2", "t3"]
      [[], []]).1 (by decide),
   ((c5_upsert_persistence encodeZero stSaved ["a"] ["t2"] [[]]).2
      (by decide)).1⟩

/-! ## Claim C10: result-count clamp -/

theorem faissCollect_length_le (md : List FaissEntry)
    (wf : Option WhereFilter) (n : ℤ) :
    ∀ (pairs : List (ℚ × ℤ)) (cnt : ℤ), cnt < n →
    (faissCollect md wf n pairs cnt).length ≤ (n - cnt).toNat := by
  intro pairs
  induction pairs with
  | nil =>
    intro cnt _
    simp [faissCollect]
  | cons p rest ih =>
    intro cnt h
    obtain ⟨sim, idx⟩ := p
    unfold faissCollect
    split
    · exact ih cnt h
    · split
      · exact ih cnt h
      · split
        · exact ih cnt h
        · split
          · simp only [List.length_cons, List.length_nil]
            omega
          · rename_i hbreak
            simp only [List.length_cons]
            have := ih (cnt + 1) (by omega)
            omega

theorem faissQuery_length_le (ntotal : ℕ) (search : ℤ → List (ℚ × ℤ))
    (md : List FaissEntry) (qt : String) (wf : Option WhereFilter)
    (k : ℤ) (hk : 1 ≤ k) :
    (faissQuery ntotal search md qt k wf).length ≤ k.toNat := by
  unfold faissQuery
  split
  · simp
  · have := faissCollect_length_le md wf k
      (search (min (ntotal : ℤ) (k * 10))) 0 (by omega)
    simpa using this

/-- C10: against the FAISS store, the effective result limit is
`max(1, min(n_results, 20))`: at most 20 chunks are ever returned
(regardless of how large `n_results` is), the clamp lies in `[1, 20]`,
and a zero or negative request is treated as 1 rather than erroring or
capping to zero. -/
theorem c10_n_results_cap (ntotal : ℕ) (search : ℤ → List (ℚ × ℤ))
    (md : List FaissEntry) (q : String) (filters : List (String × PyVal))
    (n : ℤ) (ao : Bool) (abs : Option (List String))
    (cis : Option String) (r : RetrievalResult)
    (h : retrieve_context (faissQuery ntotal search md) q filters n ao abs
      cis = .ok r) :
    r.chunks.length ≤ 20 ∧ r.total ≤ 20 ∧
    1 ≤ nResultsCap n ∧ nResultsCap n ≤ 20 ∧
    (n ≤ 0 → nResultsCap n = 1) := by
  rw [retrieve_context_ok_elim _ q filters n ao abs cis r h]
  have hcap1 : 1 ≤ nResultsCap n := le_max_left 1 _
  have hcap20 : nResultsCap n ≤ 20 := by
    unfold nResultsCap
    omega
  have hlen : (retrieveAssemble (faissQuery ntotal search md) q filters n ao
      abs cis).chunks.length ≤ 20 := by
    rw [retrieveAssemble_chunks]
    rw [List.length_map]
    calc (survivingCandidates ao _ abs cis
          (faissQuery ntotal search md (pyStrip q) (nResultsCap n)
            (assembleWhere (buildChromaConditions filters cis)))).length
        ≤ ((faissQuery ntotal search md (pyStrip q) (nResultsCap n)
            (assembleWhere (buildChromaConditions filters cis))).enum).length :=
          List.length_filter_le _ _
      _ = (faissQuery ntotal search md (pyStrip q) (nResultsCap n)
            (assembleWhere (buildChromaConditions filters cis))).length :=
          List.enum_length
      _ ≤ (nResultsCap n).toNat :=
          faissQuery_length_le ntotal search md (pyStrip q) _ _ hcap1
      _ ≤ 20 := by omega
  refine ⟨hlen, hlen, hcap1, hcap20, ?_⟩
  intro hn
  unfold nResultsCap
  omega

/-- C10 (witness): an over-large request against an empty store returns
at most 20 chunks. -/
theorem c10_n_results_cap_witness :
    (resultChunks (retrieve_context (faissQuery 0 (fun _ => []) []) "q"
      [("user_id", PyVal.vStr "u1")] 50 false none none)).length ≤ 20 :=
  (c10_n_results_cap 0 (fun _ => []) [] "q" [("user_id", PyVal.vStr "u1")]
    50 false none none _ rfl).1

/-! ## Claim C6: distance conversion -/

theorem floor_le_roundHalfEven (x : ℚ) : ⌊x⌋ ≤ roundHalfEven x := by
  unfold roundHalfEven
  split_ifs <;> omega

theorem roundHalfEven_le_floor_add_one (x : ℚ) :
    roundHalfEven x ≤ ⌊x⌋ + 1 := by
  unfold roundHalfEven
  split_ifs <;> omega

theorem int_le_roundHalfEven {x : ℚ} {n : ℤ} (h : (n : ℚ) ≤ x) :
    n ≤ roundHalfEven x := by
  have hfl : n ≤ ⌊x⌋ := Int.le_floor.mpr h
  have := floor_le_roundHalfEven x
  omega

theorem roundHalfEven_le_int {x : ℚ} {n : ℤ} (h : x ≤ (n : ℚ)) :
    roundHalfEven x ≤ n := by
  have hfl : ⌊x⌋ ≤ n := by
    calc ⌊x⌋ ≤ ⌊(n : ℚ)⌋ := Int.floor_le_floor h
      _ = n := Int.floor_intCast n
  have hkey : ⌊x⌋ = n → x - ⌊x⌋ < 1/2 := by
    intro heq
    have hc : ((⌊x⌋ : ℤ) : ℚ) = (n : ℚ) := by exact_mod_cast heq
    have := Int.floor_le x
    linarith
  unfold roundHalfEven
  split_ifs with h1 h2 h3
  · exact hfl
  · rcases eq_or_lt_of_le hfl with heq | hlt
    · exact absurd (hkey heq) h1
    · omega
  · exact hfl
  · rcases eq_or_lt_of_le hfl with heq | hlt
    · exact absurd (hkey heq) h1
    · omega

theorem roundHalfEven_mono {a b : ℚ} (h : a ≤ b) :
    roundHalfEven a ≤ roundHalfEven b := by
  have hf : ⌊a⌋ ≤ ⌊b⌋ := Int.floor_le_floor h
  rcases eq_or_lt_of_le hf with heq | hlt
  · unfold roundHalfEven
    rw [← heq]
    split_ifs <;> first | omega | (exfalso; linarith)
  · calc roundHalfEven a ≤ ⌊a⌋ + 1 := roundHalfEven_le_floor_add_one a
      _ ≤ ⌊b⌋ := by omega
      _ ≤ roundHalfEven b := floor_le_roundHalfEven b

theorem round4_mono {a b : ℚ} (h : a ≤ b) : round4 a ≤ round4 b := by
  unfold round4
  apply div_le_div_of_nonneg_right ?_ (by norm_num)
  exact_mod_cast roundHalfEven_mono
    (mul_le_mul_of_nonneg_right h (by norm_num))

theorem round4_nonneg {q : ℚ} (h : 0 ≤ q) : 0 ≤ round4 q := by
  unfold round4
  apply div_nonneg ?_ (by norm_num)
  have : (0 : ℤ) ≤ roundHalfEven (q * 10000) :=
    int_le_roundHalfEven (by push_cast; nlinarith)
  exact_mod_cast this

theorem round4_le_two {q : ℚ} (h : q ≤ 2) : round4 q ≤ 2 := by
  unfold round4
  rw [div_le_iff₀ (by norm_num : (0 : ℚ) < 10000)]
  have : roundHalfEven (q * 10000) ≤ (20000 : ℤ) :=
    roundHalfEven_le_int (by push_cast; nlinarith)
  calc ((roundHalfEven (q * 10000) : ℤ) : ℚ) ≤ ((20000 : ℤ) : ℚ) := by
        exact_mod_cast this
    _ = 2 * 10000 := by norm_num

theorem faissCollect_mem (md : List FaissEntry) (wf : Option WhereFilter)
    (n : ℤ) :
    ∀ (pairs : List (ℚ × ℤ)) (cnt : ℤ) (r : RawResult),
    r ∈ faissCollect md wf n pairs cnt →
    ∃ sim ∈ pairs.map Prod.fst,
      r.distance = round4 (max 0 (1 - sim)) := by
  intro pairs
  induction pairs with
  | nil =>
    intro cnt r hr
    simp [faissCollect] at hr
  | cons p rest ih =>
    intro cnt r hr
    obtain ⟨sim, idx⟩ := p
    simp only [List.map_cons]
    unfold faissCollect at hr
    split at hr
    · obtain ⟨s, hs, hd⟩ := ih cnt r hr
      exact ⟨s, List.mem_cons_of_mem _ hs, hd⟩
    · split at hr
      · obtain ⟨s, hs, hd⟩ := ih cnt r hr
        exact ⟨s, List.mem_cons_of_mem _ hs, hd⟩
      · split at hr
        · obtain ⟨s, hs, hd⟩ := ih cnt r hr
          exact ⟨s, List.mem_cons_of_mem _ hs, hd⟩
        · split at hr
          · rw [List.mem_singleton] at hr
            subst hr
            exact ⟨sim, List.mem_cons_self _ _, rfl⟩
          · rcases List.mem_cons.mp hr with hr1 | hr2
            · subst hr1
              exact ⟨sim, List.mem_cons_self _ _, rfl⟩
            · obtain ⟨s, hs, hd⟩ := ih (cnt + 1) r hr2
              exact ⟨s, List.mem_cons_of_mem _ hs, hd⟩

theorem faissCollect_sorted (md : List FaissEntry) (wf : Option WhereFilter)
    (n : ℤ) :
    ∀ (pairs : List (ℚ × ℤ)) (cnt : ℤ),
    (pairs.map Prod.fst).Pairwise (fun a b => b ≤ a) →
    ((faissCollect md wf n pairs cnt).map RawResult.distance).Pairwise
      (· ≤ ·) := by
  intro pairs
  induction pairs with
  | nil =>
    intro cnt _
    simp [faissCollect]
  | cons p rest ih =>
    intro cnt hp
    obtain ⟨sim, idx⟩ := p
    simp only [List.map_cons] at hp
    have hrest := hp.of_cons
    have hhead : ∀ s ∈ rest.map Prod.fst, s ≤ sim :=
      (List.pairwise_cons.mp hp).1
    unfold faissCollect
    split
    · exact ih cnt hrest
    · split
      · exact ih cnt hrest
      · split
        · exact ih cnt hrest
        · split
          · simp
          · rw [List.map_cons]
            refine List.Pairwise.cons ?_ (ih (cnt + 1) hrest)
            intro d hd
            obtain ⟨r', hr', rfl⟩ := List.mem_map.mp hd
            obtain ⟨s, hs, hdist⟩ :=
              faissCollect_mem md wf n rest (cnt + 1) r' hr'
            rw [hdist]
            show round4 (max 0 (1 - sim)) ≤ round4 (max 0 (1 - s))
            apply round4_mono
            exact max_le_max le_rfl (by linarith [hhead s hs])

/-- C6 (counterexample): the claim as stated is false: the code rounds to
4 decimal places (`round(max(0.0, 1.0 - similarity), 4)`), so with
similarity `2/3` the returned distance is `0.3333`, not `1/3`. -/
theorem c6_counterexample :
    ¬ ((faissQuery 1 searchTwoThirds mdSingle "q" 5 none).map
        RawResult.distance = [max 0 (1 - (2 : ℚ)/3)]) ∧
    (faissQuery 1 searchTwoThirds mdSingle "q" 5 none).map
        RawResult.distance = [(3333 : ℚ)/10000] := by
  have h1 : max (0 : ℚ) (1 - (2 : ℚ)/3) = 1/3 := by
    rw [max_eq_right (by norm_num)]
    norm_num
  have h2 : roundHalfEven ((1 : ℚ)/3 * 10000) = 3333 := by
    unfold roundHalfEven
    have hf : ⌊(1 : ℚ)/3 * 10000⌋ = 3333 := by
      apply Int.floor_eq_iff.mpr
      constructor <;> norm_num
    rw [hf]
    norm_num
  have he : (faissQuery 1 searchTwoThirds mdSingle "q" 5 none).map
      RawResult.distance = [(3333 : ℚ)/10000] := by
    show [round4 (max 0 (1 - (2 : ℚ)/3))] = [(3333 : ℚ)/10000]
    rw [h1]
    unfold round4
    rw [h2]
    norm_num
  refine ⟨?_, he⟩
  rw [he, h1]
  intro hcontra
  rw [List.cons.injEq] at hcontra
  have := hcontra.1
  norm_num at this

/-- C6 (amended): given FAISS's contract (similarities are inner products
of unit vectors, in `[-1, 1]`, listed in non-increasing order), every
returned distance equals `1 - similarity` clamped non-negative and then
rounded to 4 decimal places, lies in `[0, 2]`, and the distances are
non-decreasing in rank order. -/
theorem c6_distances (ntotal : ℕ) (search : ℤ → List (ℚ × ℤ))
    (md : List FaissEntry) (qt : String) (n : ℤ)
    (wf : Option WhereFilter)
    (hsort : ∀ k, ((search k).map Prod.fst).Pairwise (fun a b => b ≤ a))
    (hbound : ∀ k, ∀ p ∈ search k, -1 ≤ p.1 ∧ p.1 ≤ 1) :
    (∀ r ∈ faissQuery ntotal search md qt n wf,
      0 ≤ r.distance ∧ r.distance ≤ 2 ∧
      ∃ sim, -1 ≤ sim ∧ sim ≤ 1 ∧
        r.distance = round4 (max 0 (1 - sim))) ∧
    ((faissQuery ntotal search md qt n wf).map RawResult.distance).Pairwise
      (· ≤ ·) := by
  constructor
  · intro r hr
    unfold faissQuery at hr
    split at hr
    · simp at hr
    · obtain ⟨s, hs, hd⟩ := faissCollect_mem md wf n _ 0 r hr
      obtain ⟨p, hpmem, hps⟩ := List.mem_map.mp hs
      obtain ⟨hb1, hb2⟩ := hbound _ p hpmem
      rw [hps] at hb1 hb2
      refine ⟨?_, ?_, s, hb1, hb2, hd⟩
      · rw [hd]
        exact round4_nonneg (le_max_left 0 _)
      · rw [hd]
        exact round4_le_two (max_le (by norm_num) (by linarith))
  · unfold faissQuery
    split
    · simp
    · exact faissCollect_sorted md wf n _ 0 (hsort _)

/-- C6 (witness): a two-hit search with similarities `1/2 ≥ -1/2` yields
non-decreasing distances. -/
theorem c6_distances_witness :
    ((faissQuery 1 searchTwoHits mdSingle "q" 5 none).map
      RawResult.distance).Pairwise (· ≤ ·) := by
  apply (c6_distances 1 searchTwoHits mdSingle "q" 5 none ?_ ?_).2
  · intro k
    simp only [searchTwoHits]
    norm_num [List.pairwise_cons]
  · intro k
    simp only [searchTwoHits]
    norm_num [List.forall_mem_cons]

/-! ## Claim C8: unit-norm embeddings -/

theorem normSqR_nonneg (v : List ℝ) : 0 ≤ normSqR v := by
  unfold normSqR
  apply List.sum_nonneg
  intro x hx
  obtain ⟨y, _, rfl⟩ := List.mem_map.mp hx
  exact mul_self_nonneg y

theorem normSqR_map_div (v : List ℝ) (n : ℝ) :
    normSqR (v.map (fun x => x / n)) = normSqR v / (n * n) := by
  unfold normSqR
  induction v with
  | nil => simp
  | cons a t ih =>
    simp only [List.map_cons, List.sum_cons]
    rw [ih, div_mul_div_comm, add_div]

theorem normSq_cast (v : List ℚ) :
    normSqR (v.map (fun q : ℚ => (q : ℝ))) = ((normSq v : ℚ) : ℝ) := by
  unfold normSq normSqR
  induction v with
  | nil => simp
  | cons a t ih =>
    simp only [List.map_cons, List.sum_cons]
    rw [ih]
    push_cast
    ring

theorem normSq_replicate_zero (n : ℕ) :
    normSq (List.replicate n (0 : ℚ)) = 0 := by
  unfold normSq
  induction n with
  | zero => simp
  | succ m ih =>
    rw [List.replicate_succ, List.map_cons, List.sum_cons, ih]
    simp

theorem normSq_set_replicate_zero (n i : ℕ) (x : ℚ) (h : i < n) :
    normSq ((List.replicate n (0 : ℚ)).set i x) = x * x := by
  induction n generalizing i with
  | zero => omega
  | succ m ih =>
    cases i with
    | zero =>
      rw [List.replicate_succ, List.set_cons_zero]
      unfold normSq
      rw [List.map_cons, List.sum_cons]
      have := normSq_replicate_zero m
      unfold normSq at this
      rw [this]
      ring
    | succ j =>
      rw [List.replicate_succ, List.set_cons_succ]
      unfold normSq
      rw [List.map_cons, List.sum_cons]
      have := ih j (by omega)
      unfold normSq at this
      rw [this]
      ring

/-- C8 (counterexample): the claim as stated is false for zero-feature
texts: the empty string produces no words, bigrams or trigrams, so the
raw vector is all zeros; the norm guard (`if norm > 0`) then returns the
vector unchanged, and the returned embedding has L2 norm 0, not 1. -/
theorem c8_counterexample :
    Real.sqrt (normSqR (localEmbedding hashZero "")) ≠ 1 := by
  have hraw : rawEmbedding hashZero "" = List.replicate embeddingDim 0 :=
    rfl
  have h0 : normSqR ((List.replicate embeddingDim (0 : ℚ)).map
      (fun q : ℚ => (q : ℝ))) = 0 := by
    rw [normSq_cast, normSq_replicate_zero]
    norm_num
  unfold localEmbedding normalize_vector
  rw [hraw, h0, Real.sqrt_zero, if_neg (lt_irrefl 0), h0, Real.sqrt_zero]
  norm_num

/-- C8 (amended): for every bucket hash and every text whose feature
vector is nonzero (at least one word, bigram or non-whitespace trigram),
the embedding returned by `_local_embedding` has L2 norm exactly 1 (in
real arithmetic); zero-feature texts return the zero vector instead. -/
theorem c8_unit_norm (hash : String → ℕ) (text : String)
    (h : 0 < normSq (rawEmbedding hash text)) :
    Real.sqrt (normSqR (localEmbedding hash text)) = 1 := by
  unfold localEmbedding normalize_vector
  have hS : normSqR ((rawEmbedding hash text).map (fun q : ℚ => (q : ℝ))) =
      ((normSq (rawEmbedding hash text) : ℚ) : ℝ) := normSq_cast _
  have hSpos : 0 < normSqR ((rawEmbedding hash text).map
      (fun q : ℚ => (q : ℝ))) := by
    rw [hS]
    exact_mod_cast h
  have hsqrt_pos : 0 < Real.sqrt (normSqR ((rawEmbedding hash text).map
      (fun q : ℚ => (q : ℝ)))) := Real.sqrt_pos.mpr hSpos
  rw [if_pos hsqrt_pos, normSqR_map_div,
    Real.mul_self_sqrt (le_of_lt hSpos), div_self (ne_of_gt hSpos)]
  exact Real.sqrt_one

/-- C8 (witness): the single word `a` produces a nonzero feature vector,
and its embedding has unit norm. -/
theorem c8_unit_norm_witness :
    Real.sqrt (normSqR (localEmbedding hashZero "a")) = 1 :=
  c8_unit_norm hashZero "a" (by
    have hraw : rawEmbedding hashZero "a" =
        (List.replicate embeddingDim (0 : ℚ)).set 0 (0 + 3) := rfl
    rw [hraw, normSq_set_replicate_zero embeddingDim 0 (0 + 3)
      (by norm_num [embeddingDim])]
    norm_num)

/-! ## Claim C9: embedding-backend selection -/

/-- C9 (counterexample): the claim as stated is false: when the
sentence-transformer cannot be loaded, the active FAISS store fails with
the import error instead of selecting the hashed n-gram fallback, and the
fallback's dimension (512) differs from the FAISS store's (384) anyway. -/
theorem c9_counterexample :
    faissBackendInit false ≠ Except.ok EmbeddingBackend.hashedNGram ∧
    embeddingDim ≠ faissEmbeddingDim :=
  ⟨fun h => Except.noConfusion h, by decide⟩

/-- C9 (amended): the FAISS store uses the learned sentence encoder
unconditionally: with the model available it is the active backend, and
with the model unavailable initialization fails with an import error (no
capability probe selects Strategy B); the unused hashed n-gram module has
dimension 512 while the FAISS index has dimension 384. -/
theorem c9_no_fallback :
    faissBackendInit true = Except.ok EmbeddingBackend.sentenceTransformer ∧
    faissBackendInit false =
      Except.error "ImportError: sentence_transformers" ∧
    embeddingDim = 512 ∧ faissEmbeddingDim = 384 :=
  ⟨rfl, rfl, rfl, rfl⟩
